import Mathlib

/-!
Shallow embedding of the HLS transcode core of `localcinema` (Go),
together with theorems checking the natural-language specification
against it.

The embedding covers:
* the MP4 top-level box walk `hasMoovAtFront` and the playability
  classifier `needsTranscode` / `needsStreamingMp4` / `useHLS`,
* the job registry operations `getOrStartHLS`, `StopHLS`, `TouchHLS`
  and the runner-goroutine epilogue, modelled as explicit state
  transformers over a registry/disk state with an effect trace,
* the `/hls/{key}/{name}` artifact handler `handleHLS` with its
  bounded readiness polling.

File contents are byte lists; Go strings are modelled as `List Char`.
Machine integers are modelled as `Nat`/`Int` with explicit wrap where
the source can overflow (the 64-bit box size).
-/

namespace LocalCinema

/-- Go strings in path/handler code are modelled as lists of characters. -/
abbrev GoStr := List Char

/-! ## MP4 layout inspector (`hasMoovAtFront`, source part_000 lines 220-262) -/

/-- Source constant `largeMp4Threshold = 500 * 1024 * 1024`. -/
def largeMp4Threshold : Nat := 500 * 1024 * 1024

/-- An opened file as the box walk sees it: its byte content (one `Nat`
per byte) plus an oracle marking offsets at which `ReadAt` fails with a
genuine I/O error (in addition to the end-of-file shortfall failures,
which are derived from the content length). -/
structure GoFile where
  bytes : List Nat
  ioErr : Nat → Bool

/-- Model of `f.ReadAt(buf, offset)` with an 8-byte buffer: returns the 8
bytes at `off`, or `none` when the read errors (I/O error, or fewer than
8 bytes remain, in which case Go's `ReadAt` reports an error). -/
def readAt8 (f : GoFile) (off : Nat) : Option (List Nat) :=
  if f.ioErr off then none
  else if off + 8 ≤ f.bytes.length then some ((f.bytes.drop off).take 8)
  else none

/-- Big-endian value of a byte list (`binary.BigEndian.Uint32`/`Uint64`). -/
def beVal (l : List Nat) : Nat := l.foldl (fun a b => a * 256 + b) 0

/-- Go's `int64(u)` for an unsigned 64-bit `u`: two's-complement wrap. -/
def int64OfUInt64 (n : Nat) : Int :=
  if n % 2 ^ 64 < 2 ^ 63 then ((n % 2 ^ 64 : Nat) : Int)
  else ((n % 2 ^ 64 : Nat) : Int) - 2 ^ 64

/-- The four bytes of the box type "moov". -/
def moovBytes : List Nat := [109, 111, 111, 118]

/-- The four bytes of the box type "mdat". -/
def mdatBytes : List Nat := [109, 100, 97, 116]

/-- The adjusted size of the box headed at `off` whose first 8 header
bytes are `buf`: the big-endian 32-bit size; if it is 1, the 64-bit size
read at `off+8` (`none` if that read fails, which breaks the walk); if
the result is 0, the box extends to end of file. -/
def boxSize (f : GoFile) (off : Nat) (buf : List Nat) : Option Int :=
  let s32 : Int := (beVal (buf.take 4) : Nat)
  let s2 : Option Int :=
    if s32 = 1 then (readAt8 f (off + 8)).map (fun b => int64OfUInt64 (beVal b))
    else some s32
  s2.map (fun s => if s = 0 then (f.bytes.length : Int) - (off : Int) else s)

theorem readAt8_some_bound {f : GoFile} {off : Nat} {buf : List Nat}
    (h : readAt8 f off = some buf) : off + 8 ≤ f.bytes.length := by
  unfold readAt8 at h
  by_cases h1 : f.ioErr off
  · simp [h1] at h
  · by_cases h2 : off + 8 ≤ f.bytes.length
    · exact h2
    · simp [h1, h2] at h

/-- The `for {}` loop of `hasMoovAtFront`, starting at `off`: walks
top-level boxes; a failed read, a failed 64-bit size read, or an
adjusted size below 8 breaks the loop (result `true`); a `moov` box
yields `true`, an `mdat` box yields `false`; otherwise the walk advances
by the box size. -/
def hlsWalk (f : GoFile) (off : Nat) : Bool :=
  match h1 : readAt8 f off with
  | none => true
  | some buf =>
    match boxSize f off buf with
    | none => true
    | some size =>
      if h3 : size < 8 then true
      else
        let typ := buf.drop 4
        if typ = moovBytes then true
        else if typ = mdatBytes then false
        else hlsWalk f (off + size.toNat)
termination_by f.bytes.length - off
decreasing_by
  have hb := readAt8_some_bound h1
  omega

/-- Full `hasMoovAtFront`: `os.Open` failure returns `false`; otherwise
the walk runs from offset 0. The open-success flag is supplied by the
caller's file model (below). -/
def hasMoovAtFrontOf (openOk : Bool) (f : GoFile) : Bool :=
  if openOk then hlsWalk f 0 else false

/-! ## Spec-side restatement of the inspector decision rule (for C3) -/

/-- The sequence of box types the walk visits (those that pass the
size check); read/size failures and undersized boxes end the list. -/
def walkedBoxTypes (f : GoFile) (off : Nat) : List (List Nat) :=
  match h1 : readAt8 f off with
  | none => []
  | some buf =>
    match boxSize f off buf with
    | none => []
    | some size =>
      if h3 : size < 8 then []
      else (buf.drop 4) :: walkedBoxTypes f (off + size.toNat)
termination_by f.bytes.length - off
decreasing_by
  have hb := readAt8_some_bound h1
  omega

/-- Decision rule as the specification words it: `true` if `moov` comes
before any `mdat` among the walked box types, `false` if `mdat` comes
first, `true` if neither appears. -/
def moovBeforeMdat (ts : List (List Nat)) : Bool :=
  match ts.find? (fun t => t == moovBytes || t == mdatBytes) with
  | some t => t == moovBytes
  | none => true

/-! ## Playability classifier (`needsTranscode`, `needsStreamingMp4`, server.go line 174) -/

/-- A video file as the classifier sees it: lowercased extension
(`strings.ToLower(filepath.Ext(path))`), whether `os.Stat` fails,
whether `os.Open` succeeds, and the content. -/
structure OSFile where
  ext : String
  statErr : Bool
  openOk : Bool
  content : GoFile

/-- Source `hasMoovAtFront` on a file: open failure yields `false`. -/
def hasMoovAtFront (f : OSFile) : Bool := hasMoovAtFrontOf f.openOk f.content

/-- Source `needsTranscode`: extension is neither `.mp4` nor `.m4v`. -/
def needsTranscode (f : OSFile) : Bool :=
  !(f.ext == ".mp4") && !(f.ext == ".m4v")

/-- Source `needsStreamingMp4`: stat failure or size below the 500 MiB
threshold yields `false`; otherwise the negation of `hasMoovAtFront`. -/
def needsStreamingMp4 (f : OSFile) : Bool :=
  if f.statErr then false
  else if f.content.bytes.length < largeMp4Threshold then false
  else !(hasMoovAtFront f)

/-- `handlePlay` (server.go line 174): `useHLS := needsTranscode(p) || needsStreamingMp4(p)`.
Direct serving is chosen exactly when this is `false`. -/
def useHLS (f : OSFile) : Bool := needsTranscode f || needsStreamingMp4 f

/-! ## Step equations and the inspector refinement -/

theorem hlsWalk_step (f : GoFile) (off : Nat) :
    hlsWalk f off =
      match readAt8 f off with
      | none => true
      | some buf =>
        match boxSize f off buf with
        | none => true
        | some size =>
          if size < 8 then true
          else if buf.drop 4 = moovBytes then true
          else if buf.drop 4 = mdatBytes then false
          else hlsWalk f (off + size.toNat) := by
  rw [hlsWalk]
  cases h : readAt8 f off <;> rfl

theorem walkedBoxTypes_step (f : GoFile) (off : Nat) :
    walkedBoxTypes f off =
      match readAt8 f off with
      | none => []
      | some buf =>
        match boxSize f off buf with
        | none => []
        | some size =>
          if size < 8 then []
          else (buf.drop 4) :: walkedBoxTypes f (off + size.toNat) := by
  rw [walkedBoxTypes]
  cases h : readAt8 f off <;> rfl

theorem hlsWalk_eq_spec (f : GoFile) (off : Nat) :
    hlsWalk f off = moovBeforeMdat (walkedBoxTypes f off) := by
  refine hlsWalk.induct f
    (fun off => hlsWalk f off = moovBeforeMdat (walkedBoxTypes f off))
    ?_ ?_ ?_ ?_ ?_ ?_ off
  · intro x h1
    rw [hlsWalk_step, walkedBoxTypes_step]
    simp [h1, moovBeforeMdat]
  · intro x buf h1 h2
    rw [hlsWalk_step, walkedBoxTypes_step]
    simp [h1, h2, moovBeforeMdat]
  · intro x buf h1 size h2 h3
    rw [hlsWalk_step, walkedBoxTypes_step]
    simp [h1, h2, h3, moovBeforeMdat]
  · intro x buf h1 size h2 h3 typ hmoov
    have ht : buf.drop 4 = moovBytes := hmoov
    have hpos : ((buf.drop 4) == moovBytes || (buf.drop 4) == mdatBytes) = true := by
      simp [ht]
    rw [hlsWalk_step, walkedBoxTypes_step]
    simp only [h1, h2, if_neg h3]
    rw [if_pos ht]
    unfold moovBeforeMdat
    rw [@List.find?_cons_of_pos _ (fun t => t == moovBytes || t == mdatBytes)
      (buf.drop 4) (walkedBoxTypes f (x + size.toNat)) hpos]
    simp [ht]
  · intro x buf h1 size h2 h3 typ hmoov hmdat
    have htm : ¬(buf.drop 4 = moovBytes) := hmoov
    have ht : buf.drop 4 = mdatBytes := hmdat
    have hpos : ((buf.drop 4) == moovBytes || (buf.drop 4) == mdatBytes) = true := by
      simp [ht]
    rw [hlsWalk_step, walkedBoxTypes_step]
    simp only [h1, h2, if_neg h3]
    rw [if_neg htm, if_pos ht]
    unfold moovBeforeMdat
    rw [@List.find?_cons_of_pos _ (fun t => t == moovBytes || t == mdatBytes)
      (buf.drop 4) (walkedBoxTypes f (x + size.toNat)) hpos]
    simp only [ht]
    decide
  · intro x buf h1 size h2 h3 typ hmoov hmdat ih
    have htm : ¬(buf.drop 4 = moovBytes) := hmoov
    have htd : ¬(buf.drop 4 = mdatBytes) := hmdat
    have hneg : ¬(((buf.drop 4) == moovBytes || (buf.drop 4) == mdatBytes) = true) := by
      simp [htm, htd]
    rw [hlsWalk_step, walkedBoxTypes_step]
    simp only [h1, h2, if_neg h3]
    rw [if_neg htm, if_neg htd]
    unfold moovBeforeMdat
    rw [@List.find?_cons_of_neg _ (fun t => t == moovBytes || t == mdatBytes)
      (buf.drop 4) (walkedBoxTypes f (x + size.toNat)) hneg]
    exact ih

/-! ## Claim C3: the inspector decision rule -/

/-- C3: the MP4 layout inspector walks top-level boxes from offset 0
(4-byte big-endian size, 4-byte type; size 1 means a 64-bit size follows;
size 0 extends to end of file; size below 8 or any read failure
terminates the walk) and returns `true` exactly when `moov` is
encountered before any `mdat` among the walked boxes, `false` when
`mdat` comes first, and `true` when the walk terminates without seeing
either. -/
theorem mp4_inspector_decision_rule (f : OSFile) (h : f.openOk = true) :
    hasMoovAtFront f = moovBeforeMdat (walkedBoxTypes f.content 0) := by
  unfold hasMoovAtFront hasMoovAtFrontOf
  rw [h]
  simp [hlsWalk_eq_spec]

/-- A tiny readable open file used to instantiate hypotheses. -/
def emptyMp4 : OSFile := ⟨".mp4", false, true, ⟨[], fun _ => false⟩⟩

theorem mp4_inspector_decision_rule_witness :
    emptyMp4.openOk = true ∧
      hasMoovAtFront emptyMp4 = moovBeforeMdat (walkedBoxTypes emptyMp4.content 0) :=
  ⟨rfl, mp4_inspector_decision_rule emptyMp4 rfl⟩

/-! ## Claim C2: the direct-serve classification -/

/-- C2: when extension and size are obtainable (stat succeeds), direct
serving is chosen iff the extension is `.mp4` or `.m4v` and the size is
below 500 MiB or the MP4 layout inspector returns `true`; in particular
a file of exactly 500 MiB whose inspector says `moov` is not at the
front requires HLS, while a 499 MiB file with a `.mp4`/`.m4v` extension
direct-serves regardless of layout. -/
theorem classifier_direct_serve_iff (f : OSFile) (h : f.statErr = false) :
    (useHLS f = false ↔
      ((f.ext = ".mp4" ∨ f.ext = ".m4v") ∧
        (f.content.bytes.length < largeMp4Threshold ∨ hasMoovAtFront f = true)))
    ∧ (f.content.bytes.length = largeMp4Threshold → hasMoovAtFront f = false →
        useHLS f = true)
    ∧ ((f.ext = ".mp4" ∨ f.ext = ".m4v") →
        f.content.bytes.length = 499 * 1024 * 1024 → useHLS f = false) := by
  refine ⟨?_, ?_, ?_⟩
  · by_cases h4 : f.ext = ".mp4" <;> by_cases h5 : f.ext = ".m4v" <;>
      by_cases h6 : f.content.bytes.length < largeMp4Threshold <;>
      by_cases h7 : hasMoovAtFront f = true <;>
      simp [useHLS, needsTranscode, needsStreamingMp4, h, h4, h5, h6, h7]
  · intro hlen hmoov
    simp [useHLS, needsTranscode, needsStreamingMp4, h, hlen, hmoov]
  · rintro hext hlen
    have hlt : (499 * 1024 * 1024 : Nat) < largeMp4Threshold := by
      norm_num [largeMp4Threshold]
    rcases hext with h4 | h4 <;>
      simp [useHLS, needsTranscode, needsStreamingMp4, h, h4, hlen, hlt]

theorem classifier_direct_serve_iff_witness :
    emptyMp4.statErr = false ∧
      ((useHLS emptyMp4 = false ↔
        ((emptyMp4.ext = ".mp4" ∨ emptyMp4.ext = ".m4v") ∧
          (emptyMp4.content.bytes.length < largeMp4Threshold ∨
            hasMoovAtFront emptyMp4 = true)))
      ∧ (emptyMp4.content.bytes.length = largeMp4Threshold →
          hasMoovAtFront emptyMp4 = false → useHLS emptyMp4 = true)
      ∧ ((emptyMp4.ext = ".mp4" ∨ emptyMp4.ext = ".m4v") →
          emptyMp4.content.bytes.length = 499 * 1024 * 1024 →
            useHLS emptyMp4 = false)) :=
  ⟨rfl, classifier_direct_serve_iff emptyMp4 rfl⟩

/-! ## Claim C8: unreadable layout vs. walk read errors -/

/-- The four bytes of the box type "free". -/
def freeBytes : List Nat := [102, 114, 101, 101]

/-- Header of a well-formed 16-byte "free" box. -/
def cexHeader : List Nat := [0, 0, 0, 16] ++ freeBytes

/-- A 500 MiB file whose first box is fine but whose second read (at
offset 16) fails with an I/O error: a read error during the box walk. -/
def cexContent : GoFile :=
  ⟨cexHeader ++ List.replicate (largeMp4Threshold - 8) 0, fun off => off == 16⟩

/-- The corresponding stat-able, openable `.mp4` file. -/
def cexFile : OSFile := ⟨".mp4", false, true, cexContent⟩

theorem cex_len : cexContent.bytes.length = largeMp4Threshold := by
  simp only [cexContent, cexHeader, freeBytes, List.length_append,
    List.length_replicate]
  norm_num [largeMp4Threshold]

theorem cex_read0 : readAt8 cexContent 0 = some cexHeader := by
  unfold readAt8
  have hio : cexContent.ioErr 0 = false := rfl
  rw [hio]
  have hle : 0 + 8 ≤ cexContent.bytes.length := by
    rw [cex_len]
    norm_num [largeMp4Threshold]
  rw [if_neg (by simp), if_pos hle]
  have hlen8 : cexHeader.length = 8 := rfl
  show some ((cexContent.bytes.drop 0).take 8) = some cexHeader
  rw [List.drop_zero]
  show some ((cexHeader ++ List.replicate (largeMp4Threshold - 8) 0).take 8) =
    some cexHeader
  rw [List.take_left' hlen8]

theorem cex_boxSize : boxSize cexContent 0 cexHeader = some 16 := rfl

theorem cex_walk : hlsWalk cexContent 0 = true := by
  rw [hlsWalk_step, cex_read0]
  simp only [cex_boxSize]
  have h1 : ¬((16 : Int) < 8) := by norm_num
  rw [if_neg h1]
  have h2 : ¬(cexHeader.drop 4 = moovBytes) := by decide
  have h3 : ¬(cexHeader.drop 4 = mdatBytes) := by decide
  rw [if_neg h2, if_neg h3]
  rw [hlsWalk_step]
  have h4 : readAt8 cexContent (0 + (16 : Int).toNat) = none := rfl
  rw [h4]

/-- C8 counterexample: `cexFile` is a 500 MiB `.mp4` whose stat and open
both succeed but whose box walk hits a read error at offset 16 (after
one well-formed "free" box); the classifier nevertheless direct-serves
it (`useHLS = false`), refuting the claim that a read error during the
box walk routes the file to streaming HLS. -/
theorem mp4_walk_read_error_direct_serves :
    cexFile.ext = ".mp4" ∧ cexFile.statErr = false ∧ cexFile.openOk = true ∧
    largeMp4Threshold ≤ cexFile.content.bytes.length ∧
    readAt8 cexFile.content 16 = none ∧
    walkedBoxTypes cexFile.content 0 = [freeBytes] ∧
    useHLS cexFile = false := by
  refine ⟨rfl, rfl, rfl, ?_, rfl, ?_, ?_⟩
  · show largeMp4Threshold ≤ cexContent.bytes.length
    rw [cex_len]
  · show walkedBoxTypes cexContent 0 = [freeBytes]
    rw [walkedBoxTypes_step, cex_read0]
    simp only [cex_boxSize]
    have h1 : ¬((16 : Int) < 8) := by norm_num
    rw [if_neg h1]
    rw [walkedBoxTypes_step]
    have h4 : readAt8 cexContent (0 + (16 : Int).toNat) = none := rfl
    rw [h4]
    decide
  · have hm : hlsWalk cexContent 0 = true := cex_walk
    have hnl : ¬(cexContent.bytes.length < largeMp4Threshold) := by
      rw [cex_len]
      exact lt_irrefl _
    show useHLS ⟨".mp4", false, true, cexContent⟩ = false
    simp [useHLS, needsTranscode, needsStreamingMp4, hasMoovAtFront,
      hasMoovAtFrontOf, hm, hnl]

/-- C8 amended: only an `os.Open` failure routes a large `.mp4` to
streaming HLS; when stat succeeds, the open fails, and the size is at
least 500 MiB, the classifier requires HLS. (A read error during the
walk instead leaves the moov-at-front default, cf. the counterexample.) -/
theorem mp4_open_failure_routes_to_hls (f : OSFile) (h1 : f.statErr = false)
    (h2 : f.openOk = false) (h3 : largeMp4Threshold ≤ f.content.bytes.length) :
    useHLS f = true := by
  have hm : hasMoovAtFront f = false := by
    simp [hasMoovAtFront, hasMoovAtFrontOf, h2]
  have hnl : ¬(f.content.bytes.length < largeMp4Threshold) := not_lt.mpr h3
  simp [useHLS, needsStreamingMp4, h1, hnl, hm]

/-- A large `.mp4` whose `os.Open` fails. -/
def cexOpenFail : OSFile :=
  ⟨".mp4", false, false, ⟨List.replicate largeMp4Threshold 0, fun _ => false⟩⟩

theorem mp4_open_failure_routes_to_hls_witness :
    cexOpenFail.statErr = false ∧ cexOpenFail.openOk = false ∧
      largeMp4Threshold ≤ cexOpenFail.content.bytes.length ∧
      useHLS cexOpenFail = true :=
  ⟨rfl, rfl, by simp [cexOpenFail, List.length_replicate],
    mp4_open_failure_routes_to_hls cexOpenFail rfl rfl
      (by simp [cexOpenFail, List.length_replicate])⟩

/-! ## Job registry state machine (source part_000 lines 166-478)

The registry `hlsJobs` is a map from keys to jobs; the on-disk cache is
modelled as two predicates over directory paths (existence, and
completeness of `stream.m3u8`, i.e. `isCacheComplete`). Filesystem and
process interactions appear as an explicit effect trace. Keys are the
hex strings produced by `hlsJobKey` (md5 of path and mtime); the
operations below take the key directly, as `getOrStartHLS` computes it
first and all registry logic depends only on it. -/

/-- The in-memory `HLSJob` record. `hasCmd` models `Cmd != nil`,
`procLive` models `Cmd.Process != nil` (set once the runner has started
the child; the runner launches immediately after insertion). -/
structure HLSJob where
  dir : GoStr
  hasCmd : Bool
  procLive : Bool
  doneClosed : Bool
  cached : Bool
  lastAccess : Int
deriving DecidableEq, Repr

/-- On-disk state under the cache root: which directories exist, and for
which directories `stream.m3u8` exists and contains `#EXT-X-ENDLIST`
(the source's `isCacheComplete`). -/
structure Disk where
  dirExists : GoStr → Bool
  complete : GoStr → Bool

/-- Process state: the `hlsJobs` registry plus the disk. -/
structure HLSState where
  hlsJobs : List (GoStr × HLSJob)
  disk : Disk

/-- Registry lookup `hlsJobs[key]`. -/
def lookupJob (reg : List (GoStr × HLSJob)) (k : GoStr) : Option HLSJob :=
  (reg.find? (fun p => p.1 == k)).map Prod.snd

/-- Remove a key binding (part of Go map assignment/deletion). -/
def eraseKey (reg : List (GoStr × HLSJob)) (k : GoStr) :
    List (GoStr × HLSJob) :=
  reg.filter (fun p => !(p.1 == k))

/-- Go map assignment `hlsJobs[key] = job`. -/
def setJob (reg : List (GoStr × HLSJob)) (k : GoStr) (j : HLSJob) :
    List (GoStr × HLSJob) :=
  (k, j) :: eraseKey reg k

/-- `os.RemoveAll(dir)`: the directory is gone, and so is any
`stream.m3u8` below it. -/
def diskRemoveAll (d : Disk) (p : GoStr) : Disk :=
  ⟨fun q => if q == p then false else d.dirExists q,
   fun q => if q == p then false else d.complete q⟩

/-- `os.MkdirAll(dir, 0755)` on success: the directory exists; no
playlist is created. -/
def diskMkdirAll (d : Disk) (p : GoStr) : Disk :=
  ⟨fun q => if q == p then true else d.dirExists q, d.complete⟩

/-- `filepath.Join(hlsCacheDir, key)`. -/
def cacheDirOf (root key : GoStr) : GoStr := root ++ '/' :: key

/-- External interactions of the registry operations. -/
inductive Effect where
  | mkdir (dir : GoStr)
  | probe
  | spawn
  | kill
  | removeDir (dir : GoStr)
deriving DecidableEq, Repr

/-- Environment results consulted by `getOrStartHLS`: whether `MkdirAll`
succeeds, the probed codec, and `time.Now().Unix()`. -/
structure HLSEnv where
  mkdirOk : Bool
  codec : String
  now : Int

/-- Source `canBrowserPlayCodec`. -/
def canBrowserPlayCodec (codec : String) : Bool :=
  codec == "h264" || codec == "avc1" || codec == "avc"

/-- Result of `getOrStartHLS`: the returned job (or `none` with
`isErr = true` on the mkdir failure path), the new state, and the
effect trace. -/
structure StartResult where
  job : Option HLSJob
  isErr : Bool
  state : HLSState
  effects : List Effect

/-- Source `getOrStartHLS` (part_000 lines 318-425): return a resident
job if present; else adopt a complete on-disk cache as a
`Cmd = nil, Cached = true, Done`-closed job; else create the cache
directory (fail fast on error), probe the codec, insert a running job
and spawn the transcoder. -/
def getOrStartHLS (root key : GoStr) (env : HLSEnv) (s : HLSState) :
    StartResult :=
  match lookupJob s.hlsJobs key with
  | some job => ⟨some job, false, s, []⟩
  | none =>
    let cacheDir := cacheDirOf root key
    if s.disk.complete cacheDir then
      let job : HLSJob := ⟨cacheDir, false, false, true, true, env.now⟩
      ⟨some job, false, ⟨setJob s.hlsJobs key job, s.disk⟩, []⟩
    else if env.mkdirOk then
      let job : HLSJob := ⟨cacheDir, true, true, false, false, env.now⟩
      ⟨some job, false,
        ⟨setJob s.hlsJobs key job, diskMkdirAll s.disk cacheDir⟩,
        [Effect.mkdir cacheDir, Effect.probe, Effect.spawn]⟩
    else ⟨none, true, s, []⟩

/-- The runner goroutine's epilogue (part_000 lines 405-422) once
`cmd.Run()` returns: on failure remove the whole cache directory, on
success set `Cached = true`; close `Done` either way; never delete the
registry entry. The goroutine mutates the job record it closed over; we
express this as an update of the (still resident) registry entry. -/
def runnerExit (root key : GoStr) (exitOk : Bool) (s : HLSState) :
    HLSState × List Effect :=
  let cacheDir := cacheDirOf root key
  match lookupJob s.hlsJobs key with
  | none => (s, [])
  | some job =>
    if exitOk then
      (⟨setJob s.hlsJobs key { job with cached := true, doneClosed := true },
        s.disk⟩, [])
    else
      (⟨setJob s.hlsJobs key { job with doneClosed := true },
        diskRemoveAll s.disk cacheDir⟩, [Effect.removeDir cacheDir])

/-- Source `StopHLS` (part_000 lines 437-452): delete the registry
entry; kill the process and remove the artifact directory exactly when
the job still has a command with a live process handle and is not
cached. -/
def stopHLS (key : GoStr) (s : HLSState) : HLSState × List Effect :=
  match lookupJob s.hlsJobs key with
  | none => (s, [])
  | some job =>
    let s1 : HLSState := ⟨eraseKey s.hlsJobs key, s.disk⟩
    if job.hasCmd && job.procLive && !job.cached then
      (⟨s1.hlsJobs, diskRemoveAll s1.disk job.dir⟩,
        [Effect.kill, Effect.removeDir job.dir])
    else (s1, [])

/-- Source `TouchHLS`: refresh `lastAccess` when the key is resident. -/
def touchHLS (key : GoStr) (now : Int) (s : HLSState) : HLSState :=
  match lookupJob s.hlsJobs key with
  | none => s
  | some job =>
    ⟨setJob s.hlsJobs key { job with lastAccess := now }, s.disk⟩

/-! ### Registry lookup lemmas -/

theorem find?_eraseKey (reg : List (GoStr × HLSJob)) (k k' : GoStr)
    (hne : ¬(k' = k)) :
    (eraseKey reg k).find? (fun p => p.1 == k') =
      reg.find? (fun p => p.1 == k') := by
  induction reg with
  | nil => rfl
  | cons a reg ih =>
    unfold eraseKey at *
    rw [List.filter_cons]
    by_cases ha : a.1 = k
    · have h1 : (!(a.1 == k)) = false := by simp [ha]
      have h2 : (a.1 == k') = false := by
        simp only [ha]
        exact beq_false_of_ne (fun h => hne h.symm)
      rw [h1, if_neg (by decide)]
      rw [ih, List.find?_cons_of_neg _ (by simp [h2])]
    · have h1 : (!(a.1 == k)) = true := by simp [ha]
      rw [h1, if_pos rfl]
      by_cases hk : a.1 = k'
      · rw [List.find?_cons_of_pos _ (by simp [hk]),
          List.find?_cons_of_pos _ (by simp [hk])]
      · rw [List.find?_cons_of_neg _ (by simp [hk]),
          List.find?_cons_of_neg _ (by simp [hk]), ih]

theorem lookupJob_setJob (reg : List (GoStr × HLSJob)) (k k' : GoStr)
    (j : HLSJob) :
    lookupJob (setJob reg k j) k' =
      if k' = k then some j else lookupJob reg k' := by
  unfold lookupJob setJob
  by_cases hk : k' = k
  · rw [if_pos hk, List.find?_cons_of_pos _ (by simp [hk])]
    rfl
  · rw [if_neg hk, List.find?_cons_of_neg _ (by simp [Ne.symm hk]),
      find?_eraseKey reg k k' hk]

theorem lookupJob_eraseKey_self (reg : List (GoStr × HLSJob)) (k : GoStr) :
    lookupJob (eraseKey reg k) k = none := by
  unfold lookupJob eraseKey
  induction reg with
  | nil => rfl
  | cons a reg ih =>
    rw [List.filter_cons]
    by_cases ha : a.1 = k
    · rw [if_neg (by simp [ha])]
      exact ih
    · rw [if_pos (by simp [ha]), List.find?_cons_of_neg _ (by simp [ha])]
      exact ih

/-! ## Claim C7: adoption of a complete on-disk cache -/

/-- C7: with no registry entry for K but a complete cached playlist in
`<cacheRoot>/K`, `getOrStartHLS` inserts and returns a job with no
process handle (`hasCmd = false`), `cached = true` and `done` already
fired, and produces no effects (no probe, no mkdir, no spawn). -/
theorem adopt_complete_cache (root key : GoStr) (env : HLSEnv) (s : HLSState)
    (h1 : lookupJob s.hlsJobs key = none)
    (h2 : s.disk.complete (cacheDirOf root key) = true) :
    getOrStartHLS root key env s =
      ⟨some ⟨cacheDirOf root key, false, false, true, true, env.now⟩, false,
        ⟨setJob s.hlsJobs key
          ⟨cacheDirOf root key, false, false, true, true, env.now⟩, s.disk⟩,
        []⟩ := by
  unfold getOrStartHLS
  simp [h1, h2]

/-- Fixed concrete key, root and derived directory for witnesses. -/
def cxRoot : GoStr := "hls".toList

def cxKey : GoStr := "k1".toList

def cxDir : GoStr := cacheDirOf cxRoot cxKey

/-- A disk on which every directory exists with a complete playlist. -/
def fullDisk : Disk := ⟨fun _ => true, fun _ => true⟩

/-- A disk with no directories at all. -/
def bareDisk : Disk := ⟨fun _ => false, fun _ => false⟩

def adoptState : HLSState := ⟨[], fullDisk⟩

def cxEnv : HLSEnv := ⟨true, "hevc", 10⟩

theorem adopt_complete_cache_witness :
    lookupJob adoptState.hlsJobs cxKey = none ∧
    adoptState.disk.complete (cacheDirOf cxRoot cxKey) = true ∧
    getOrStartHLS cxRoot cxKey cxEnv adoptState =
      ⟨some ⟨cacheDirOf cxRoot cxKey, false, false, true, true, cxEnv.now⟩,
        false,
        ⟨setJob adoptState.hlsJobs cxKey
          ⟨cacheDirOf cxRoot cxKey, false, false, true, true, cxEnv.now⟩,
          adoptState.disk⟩, []⟩ :=
  ⟨rfl, rfl, adopt_complete_cache cxRoot cxKey cxEnv adoptState rfl rfl⟩

/-! ## Claim C10: mkdir failure leaves the registry untouched -/

/-- C10: when the key is not resident, the cache is not complete, and
`MkdirAll` fails, `getOrStartHLS` returns an error with the state
unchanged and no effects (no probe, no spawn), so the key is still a
fresh admission afterwards. -/
theorem mkdir_failure_no_insert (root key : GoStr) (env : HLSEnv)
    (s : HLSState) (h1 : lookupJob s.hlsJobs key = none)
    (h2 : s.disk.complete (cacheDirOf root key) = false)
    (h3 : env.mkdirOk = false) :
    getOrStartHLS root key env s = ⟨none, true, s, []⟩ ∧
    lookupJob (getOrStartHLS root key env s).state.hlsJobs key = none := by
  have hmain : getOrStartHLS root key env s = ⟨none, true, s, []⟩ := by
    unfold getOrStartHLS
    simp [h1, h2, h3]
  exact ⟨hmain, by rw [hmain]; exact h1⟩

def bareState : HLSState := ⟨[], bareDisk⟩

def mkdirFailEnv : HLSEnv := ⟨false, "", 0⟩

theorem mkdir_failure_no_insert_witness :
    lookupJob bareState.hlsJobs cxKey = none ∧
    bareState.disk.complete (cacheDirOf cxRoot cxKey) = false ∧
    mkdirFailEnv.mkdirOk = false ∧
    (getOrStartHLS cxRoot cxKey mkdirFailEnv bareState =
        ⟨none, true, bareState, []⟩ ∧
      lookupJob (getOrStartHLS cxRoot cxKey mkdirFailEnv
        bareState).state.hlsJobs cxKey = none) :=
  ⟨rfl, rfl, rfl,
    mkdir_failure_no_insert cxRoot cxKey mkdirFailEnv bareState rfl rfl rfl⟩

/-! ## Claim C1: a resident failed job is returned, not re-admitted -/

/-- A job as inserted by the admission path of `getOrStartHLS`. -/
def runningJob : HLSJob := ⟨cxDir, true, true, false, false, 0⟩

def runningState : HLSState := ⟨[(cxKey, runningJob)], bareDisk⟩

/-- The state after the runner for `cxKey` exits with non-zero status:
the job is still resident, `cached = false`, `done` closed. -/
def failedState : HLSState := (runnerExit cxRoot cxKey false runningState).1

/-- C1 counterexample: with the failed job for `cxKey` still resident
(not yet reaped), `getOrStartHLS` returns that resident failed job and
produces no effects at all — in particular it does not re-enter the
admission path and does not start a new external process, contrary to
the claim. -/
theorem getOrStart_failed_job_counterexample :
    lookupJob failedState.hlsJobs cxKey =
      some ⟨cxDir, true, true, true, false, 0⟩ ∧
    (getOrStartHLS cxRoot cxKey cxEnv failedState).job =
      some ⟨cxDir, true, true, true, false, 0⟩ ∧
    (getOrStartHLS cxRoot cxKey cxEnv failedState).effects = [] ∧
    (getOrStartHLS cxRoot cxKey cxEnv failedState).state.hlsJobs =
      failedState.hlsJobs := by
  refine ⟨?_, ?_, ?_, ?_⟩ <;> decide

/-- C1 amended: while any job — in particular the resident failed one —
is registered for K, `getOrStartHLS` returns it unchanged with no
effects; a new external process is spawned only when no entry is
resident, the on-disk cache is incomplete, and mkdir succeeds. -/
theorem getOrStart_resident_short_circuit :
    (∀ (root key : GoStr) (env : HLSEnv) (s : HLSState) (job : HLSJob),
      lookupJob s.hlsJobs key = some job →
      getOrStartHLS root key env s = ⟨some job, false, s, []⟩) ∧
    (∀ (root key : GoStr) (env : HLSEnv) (s : HLSState),
      lookupJob s.hlsJobs key = none →
      s.disk.complete (cacheDirOf root key) = false → env.mkdirOk = true →
      (getOrStartHLS root key env s).effects =
        [Effect.mkdir (cacheDirOf root key), Effect.probe, Effect.spawn]) := by
  constructor
  · intro root key env s job h
    unfold getOrStartHLS
    simp [h]
  · intro root key env s h1 h2 h3
    unfold getOrStartHLS
    simp [h1, h2, h3]

theorem getOrStart_resident_short_circuit_witness :
    lookupJob failedState.hlsJobs cxKey =
      some ⟨cxDir, true, true, true, false, 0⟩ ∧
    getOrStartHLS cxRoot cxKey cxEnv failedState =
      ⟨some ⟨cxDir, true, true, true, false, 0⟩, false, failedState, []⟩ :=
  ⟨by decide,
    getOrStart_resident_short_circuit.1 cxRoot cxKey cxEnv failedState
      ⟨cxDir, true, true, true, false, 0⟩ (by decide)⟩

/-! ## Claim C5: the runner's exit epilogue -/

/-- C5: for a resident, uncached job under key K: a non-zero exit
removes the whole artifact directory (it no longer exists, and its
playlist is no longer complete) with `cached` still false; a zero exit
sets `cached = true` and touches neither disk nor effects; in both
cases `done` is closed and the registry's key set is unchanged. -/
theorem runner_exit_spec (root key : GoStr) (exitOk : Bool) (s : HLSState)
    (job : HLSJob) (hjob : lookupJob s.hlsJobs key = some job)
    (hc : job.cached = false) :
    lookupJob (runnerExit root key exitOk s).1.hlsJobs key =
      some { job with cached := exitOk, doneClosed := true } ∧
    (exitOk = false →
      (runnerExit root key exitOk s).1.disk.dirExists (cacheDirOf root key)
        = false ∧
      (runnerExit root key exitOk s).1.disk.complete (cacheDirOf root key)
        = false ∧
      (runnerExit root key exitOk s).2 =
        [Effect.removeDir (cacheDirOf root key)]) ∧
    (exitOk = true → (runnerExit root key exitOk s).1.disk = s.disk ∧
      (runnerExit root key exitOk s).2 = []) ∧
    (∀ k', (lookupJob (runnerExit root key exitOk s).1.hlsJobs k').isSome =
      (lookupJob s.hlsJobs k').isSome) := by
  cases exitOk with
  | false =>
    refine ⟨?_, ?_, ?_, ?_⟩
    · unfold runnerExit
      simp only [hjob]
      rw [if_neg (by decide)]
      rw [lookupJob_setJob, if_pos rfl]
      simp [hc]
    · intro _
      unfold runnerExit
      simp only [hjob]
      rw [if_neg (by decide)]
      refine ⟨?_, ?_, rfl⟩ <;> simp [diskRemoveAll]
    · intro h
      exact absurd h (by simp)
    · intro k'
      unfold runnerExit
      simp only [hjob]
      rw [if_neg (by decide)]
      rw [lookupJob_setJob]
      by_cases hk : k' = key
      · rw [if_pos hk, hk, hjob]
        rfl
      · rw [if_neg hk]
  | true =>
    refine ⟨?_, ?_, ?_, ?_⟩
    · unfold runnerExit
      simp only [hjob]
      rw [if_pos trivial]
      rw [lookupJob_setJob, if_pos rfl]
    · intro h
      exact absurd h (by simp)
    · intro _
      unfold runnerExit
      simp only [hjob]
      rw [if_pos trivial]
      exact ⟨rfl, rfl⟩
    · intro k'
      unfold runnerExit
      simp only [hjob]
      rw [if_pos trivial]
      rw [lookupJob_setJob]
      by_cases hk : k' = key
      · rw [if_pos hk, hk, hjob]
        rfl
      · rw [if_neg hk]

theorem runner_exit_spec_witness :
    lookupJob runningState.hlsJobs cxKey = some runningJob ∧
    runningJob.cached = false ∧
    (lookupJob (runnerExit cxRoot cxKey false runningState).1.hlsJobs cxKey =
        some { runningJob with cached := false, doneClosed := true } ∧
      (runnerExit cxRoot cxKey false runningState).1.disk.dirExists
        (cacheDirOf cxRoot cxKey) = false ∧
      (runnerExit cxRoot cxKey false runningState).2 =
        [Effect.removeDir (cacheDirOf cxRoot cxKey)]) :=
  ⟨by decide, rfl,
    (runner_exit_spec cxRoot cxKey false runningState runningJob
      (by decide) rfl).1,
    ((runner_exit_spec cxRoot cxKey false runningState runningJob
      (by decide) rfl).2.1 rfl).1,
    ((runner_exit_spec cxRoot cxKey false runningState runningJob
      (by decide) rfl).2.1 rfl).2.2⟩

/-! ## Claim C6: `StopHLS` -/

/-- C6: `stopHLS` always leaves the registry without an entry for K; if
a job was resident it kills the process and removes the artifact
directory exactly when the job still has a command with a live process
handle and is not cached; a cached job's on-disk artifact (and the whole
disk) is left intact, and so is the disk when no kill happens or no job
was resident. -/
theorem stop_hls_spec (key : GoStr) (s : HLSState) :
    lookupJob (stopHLS key s).1.hlsJobs key = none ∧
    (∀ job, lookupJob s.hlsJobs key = some job →
      ((job.hasCmd && job.procLive && !job.cached) = true ↔
        (stopHLS key s).2 = [Effect.kill, Effect.removeDir job.dir]) ∧
      ((job.hasCmd && job.procLive && !job.cached) = true →
        (stopHLS key s).1.disk.dirExists job.dir = false ∧
        (stopHLS key s).1.disk.complete job.dir = false) ∧
      ((job.hasCmd && job.procLive && !job.cached) = false →
        (stopHLS key s).2 = [] ∧ (stopHLS key s).1.disk = s.disk) ∧
      (job.cached = true → (stopHLS key s).1.disk = s.disk)) ∧
    (lookupJob s.hlsJobs key = none →
      (stopHLS key s).1 = s ∧ (stopHLS key s).2 = []) := by
  cases h : lookupJob s.hlsJobs key with
  | none =>
    refine ⟨?_, ?_, ?_⟩
    · simp [stopHLS, h]
    · intro job hj
      cases hj
    · intro _
      simp [stopHLS, h]
  | some job0 =>
    by_cases hc : (job0.hasCmd && job0.procLive && !job0.cached) = true
    · refine ⟨?_, ?_, ?_⟩
      · unfold stopHLS
        simp only [h]
        rw [if_pos hc]
        exact lookupJob_eraseKey_self s.hlsJobs key
      · intro job hj
        obtain rfl : job0 = job := Option.some.inj hj
        refine ⟨⟨fun _ => ?_, fun _ => hc⟩, fun _ => ?_, fun hf => ?_,
          fun hcach => ?_⟩
        · unfold stopHLS
          simp only [h]
          rw [if_pos hc]
        · unfold stopHLS
          simp only [h]
          rw [if_pos hc]
          exact ⟨by simp [diskRemoveAll], by simp [diskRemoveAll]⟩
        · simp [hc] at hf
        · simp [hcach] at hc
      · intro hn
        cases hn
    · refine ⟨?_, ?_, ?_⟩
      · unfold stopHLS
        simp only [h]
        rw [if_neg hc]
        exact lookupJob_eraseKey_self s.hlsJobs key
      · intro job hj
        obtain rfl : job0 = job := Option.some.inj hj
        refine ⟨⟨fun ht => absurd ht hc, fun heff => ?_⟩,
          fun ht => absurd ht hc, fun _ => ?_, fun _ => ?_⟩
        · exfalso
          unfold stopHLS at heff
          simp only [h] at heff
          rw [if_neg hc] at heff
          cases heff
        · unfold stopHLS
          simp only [h]
          rw [if_neg hc]
          exact ⟨rfl, rfl⟩
        · unfold stopHLS
          simp only [h]
          rw [if_neg hc]
      · intro hn
        cases hn

/-- A cached (completed or adopted) resident job. -/
def cachedJob : HLSJob := ⟨cxDir, false, false, true, true, 0⟩

def cachedState : HLSState := ⟨[(cxKey, cachedJob)], fullDisk⟩

theorem stop_hls_spec_witness :
    lookupJob (stopHLS cxKey cachedState).1.hlsJobs cxKey = none ∧
    ((stopHLS cxKey cachedState).2 = [] ∧
      (stopHLS cxKey cachedState).1.disk = cachedState.disk) :=
  ⟨(stop_hls_spec cxKey cachedState).1,
    ((stop_hls_spec cxKey cachedState).2.1 cachedJob (by decide)).2.2.1
      (by decide)⟩

/-! ## Artifact server `handleHLS` (server.go lines 230-306)

The handler is modelled as a pure function of the request path, the
registry/disk state, `time.Now().Unix()`, and a poll oracle giving the
content of the target file at each poll attempt (`none` when the file
does not exist or cannot be read). Attempt `i` happens 100 ms after
attempt `i - 1` (`time.Sleep(100 * time.Millisecond)`). -/

/-- The route mount point trimmed with `strings.TrimPrefix`. -/
def hlsUrlPre : GoStr := "/hls/".toList

/-- `strings.TrimPrefix(r.URL.Path, "/hls/")`. -/
def stripHlsPre (s : GoStr) : GoStr :=
  if hlsUrlPre.isPrefixOf s then s.drop hlsUrlPre.length else s

/-- `strings.SplitN(path, "/", 2)`: `none` models a one-element result
(no separator, so `len(parts) != 2`); otherwise the pieces before and
after the first `/`. -/
def splitFirstSlash : GoStr → Option (GoStr × GoStr)
  | [] => none
  | c :: rest =>
    if c = '/' then some ([], rest)
    else (splitFirstSlash rest).map (fun p => (c :: p.1, p.2))

/-- `strings.Contains(s, sub)`. -/
def goContains (s sub : GoStr) : Bool :=
  (List.range (s.length + 1)).any (fun i => sub.isPrefixOf (s.drop i))

def slashStr : GoStr := "/".toList

def dotdotStr : GoStr := "..".toList

def m3u8Suffix : GoStr := ".m3u8".toList

def tsSuffix : GoStr := ".ts".toList

/-- HTTP response as far as the handler shapes it. -/
structure HLSResponse where
  status : Nat
  contentType : Option String
  cacheControl : Option String
  servedPath : Option GoStr
deriving DecidableEq, Repr

/-- Handler side effects other than the response itself. -/
inductive HEffect where
  | touch (key : GoStr)
  | serve (path : GoStr)
deriving DecidableEq, Repr

structure HandleResult where
  resp : HLSResponse
  state : HLSState
  effects : List HEffect

def notFoundResp : HLSResponse := ⟨404, none, none, none⟩

def unavailableResp : HLSResponse := ⟨503, none, none, none⟩

/-- Playlist loop bound: `for i := 0; i < 150; i++`（15 s）. -/
def m3u8PollAttempts : Nat := 150

/-- Segment loop bound: `for i := 0; i < 300; i++`（30 s）. -/
def tsPollAttempts : Nat := 300

/-- `time.Sleep(100 * time.Millisecond)` between attempts. -/
def pollIntervalMs : Nat := 100

/-- First attempt index in `[i, i + n)` at which `ok` holds. -/
def findReady (ok : Nat → Bool) : Nat → Nat → Option Nat
  | _, 0 => none
  | i, n + 1 => if ok i then some i else findReady ok (i + 1) n

/-- Playlist readiness at attempt `i`: `os.ReadFile` succeeds and the
content contains `".ts"`. -/
def m3u8Ready (poll : Nat → Option GoStr) (i : Nat) : Bool :=
  match poll i with
  | none => false
  | some content => goContains content tsSuffix

/-- Segment readiness at attempt `i`: `os.Stat` succeeds. -/
def tsReady (poll : Nat → Option GoStr) (i : Nat) : Bool := (poll i).isSome

/-- Artifact directory resolution: the resident job's `Dir`, else the
key's cache directory when its playlist is complete, else none. -/
def resolveDir (root key : GoStr) (s : HLSState) : Option GoStr :=
  match lookupJob s.hlsJobs key with
  | some job => some job.dir
  | none =>
    if s.disk.complete (cacheDirOf root key) then some (cacheDirOf root key)
    else none

/-- Source `handleHLS`: parse `{key}/{filename}`, reject traversal
attempts before touching anything, touch the job, resolve the artifact
directory, then serve with bounded readiness polling for `.m3u8` and
`.ts` names. -/
def handleHLS (root urlPath : GoStr) (now : Int) (poll : Nat → Option GoStr)
    (s : HLSState) : HandleResult :=
  let path := stripHlsPre urlPath
  match splitFirstSlash path with
  | none => ⟨notFoundResp, s, []⟩
  | some (key, fileName) =>
    if goContains fileName slashStr || goContains fileName dotdotStr then
      ⟨notFoundResp, s, []⟩
    else
      let s1 := touchHLS key now s
      match resolveDir root key s1 with
      | none => ⟨notFoundResp, s1, [HEffect.touch key]⟩
      | some hlsDir =>
        let filePath := hlsDir ++ '/' :: fileName
        if m3u8Suffix.isSuffixOf fileName then
          match findReady (m3u8Ready poll) 0 m3u8PollAttempts with
          | none => ⟨unavailableResp, s1, [HEffect.touch key]⟩
          | some _ =>
            ⟨⟨200, some "application/vnd.apple.mpegurl", some "no-cache",
              some filePath⟩, s1, [HEffect.touch key, HEffect.serve filePath]⟩
        else if tsSuffix.isSuffixOf fileName then
          match findReady (tsReady poll) 0 tsPollAttempts with
          | none => ⟨unavailableResp, s1, [HEffect.touch key]⟩
          | some _ =>
            ⟨⟨200, some "video/mp2t", none, some filePath⟩, s1,
              [HEffect.touch key, HEffect.serve filePath]⟩
        else
          ⟨⟨200, none, none, some filePath⟩, s1,
            [HEffect.touch key, HEffect.serve filePath]⟩

/-! ### Poll loop characterisation -/

theorem findReady_eq_none_iff (ok : Nat → Bool) (n : Nat) :
    ∀ i, (findReady ok i n = none ↔
      ∀ j, i ≤ j → j < i + n → ok j = false) := by
  induction n with
  | zero =>
    intro i
    constructor
    · intro _ j h1 h2
      omega
    · intro _
      rfl
  | succ n ih =>
    intro i
    by_cases hi : ok i = true
    · constructor
      · intro h
        unfold findReady at h
        rw [if_pos hi] at h
        cases h
      · intro h
        rw [h i (le_refl i) (by omega)] at hi
        cases hi
    · have hi' : ok i = false := by
        cases hx : ok i
        · rfl
        · exact absurd hx hi
      constructor
      · intro h j h1 h2
        unfold findReady at h
        rw [if_neg hi] at h
        by_cases hj : j = i
        · rw [hj]
          exact hi'
        · exact (ih (i + 1)).mp h j (by omega) (by omega)
      · intro h
        unfold findReady
        rw [if_neg hi]
        exact (ih (i + 1)).mpr (fun j h1 h2 => h j (by omega) (by omega))

theorem findReady_isSome_of_ex {ok : Nat → Bool} {n : Nat}
    (h : ∃ j, j < n ∧ ok j = true) : ∃ w, findReady ok 0 n = some w := by
  cases hf : findReady ok 0 n with
  | some w => exact ⟨w, rfl⟩
  | none =>
    obtain ⟨j, hj1, hj2⟩ := h
    have := (findReady_eq_none_iff ok n 0).mp hf j (by omega) (by omega)
    rw [this] at hj2
    cases hj2

theorem ts_suffix_not_m3u8 {name : GoStr}
    (h : tsSuffix.isSuffixOf name = true) :
    m3u8Suffix.isSuffixOf name = false := by
  cases hx : m3u8Suffix.isSuffixOf name
  · rfl
  · exfalso
    obtain ⟨t1, ht1⟩ := List.isSuffixOf_iff_suffix.mp h
    obtain ⟨t2, ht2⟩ := List.isSuffixOf_iff_suffix.mp hx
    have g1 : name.getLast? = some 's' := by
      rw [← ht1, List.getLast?_append_of_ne_nil _ (by decide)]
      decide
    have g2 : name.getLast? = some '8' := by
      rw [← ht2, List.getLast?_append_of_ne_nil _ (by decide)]
      decide
    rw [g1] at g2
    cases g2

/-! ## Claim C4: bounded readiness polling -/

/-- C4: for a parsed request `{key}/{name}` that passes the traversal
check and whose artifact directory resolves: a `.m3u8` name is polled
every 100 ms for at most 150 attempts (15 s) for the file to exist with
content containing ".ts", answering 503 on timeout and otherwise 200
with content type `application/vnd.apple.mpegurl` and a no-cache
header; a `.ts` name is polled for existence every 100 ms for at most
300 attempts (30 s), answering 503 on timeout and otherwise 200 with
content type `video/mp2t`. -/
theorem handle_hls_polling (root urlPath key name hlsDir : GoStr) (now : Int)
    (poll : Nat → Option GoStr) (s : HLSState)
    (hsplit : splitFirstSlash (stripHlsPre urlPath) = some (key, name))
    (hslash : goContains name slashStr = false)
    (hdots : goContains name dotdotStr = false)
    (hres : resolveDir root key (touchHLS key now s) = some hlsDir) :
    pollIntervalMs = 100 ∧ m3u8PollAttempts = 150 ∧ tsPollAttempts = 300 ∧
    (m3u8Suffix.isSuffixOf name = true →
      ((∀ i, i < m3u8PollAttempts → m3u8Ready poll i = false) →
        (handleHLS root urlPath now poll s).resp = unavailableResp) ∧
      ((∃ i, i < m3u8PollAttempts ∧ m3u8Ready poll i = true) →
        (handleHLS root urlPath now poll s).resp =
          ⟨200, some "application/vnd.apple.mpegurl", some "no-cache",
            some (hlsDir ++ '/' :: name)⟩)) ∧
    (tsSuffix.isSuffixOf name = true →
      ((∀ i, i < tsPollAttempts → tsReady poll i = false) →
        (handleHLS root urlPath now poll s).resp = unavailableResp) ∧
      ((∃ i, i < tsPollAttempts ∧ tsReady poll i = true) →
        (handleHLS root urlPath now poll s).resp =
          ⟨200, some "video/mp2t", none,
            some (hlsDir ++ '/' :: name)⟩)) := by
  refine ⟨rfl, rfl, rfl, ?_, ?_⟩
  · intro hm
    constructor
    · intro hall
      have hnone : findReady (m3u8Ready poll) 0 m3u8PollAttempts = none :=
        (findReady_eq_none_iff _ _ 0).mpr (fun j _ h2 => hall j (by omega))
      unfold handleHLS
      simp [hsplit, hslash, hdots, hres, hm, hnone]
    · intro hex
      obtain ⟨w, hw⟩ := findReady_isSome_of_ex hex
      unfold handleHLS
      simp [hsplit, hslash, hdots, hres, hm, hw]
  · intro ht
    have hm8 : m3u8Suffix.isSuffixOf name = false := ts_suffix_not_m3u8 ht
    constructor
    · intro hall
      have hnone : findReady (tsReady poll) 0 tsPollAttempts = none :=
        (findReady_eq_none_iff _ _ 0).mpr (fun j _ h2 => hall j (by omega))
      unfold handleHLS
      simp [hsplit, hslash, hdots, hres, hm8, ht, hnone]
    · intro hex
      obtain ⟨w, hw⟩ := findReady_isSome_of_ex hex
      unfold handleHLS
      simp [hsplit, hslash, hdots, hres, hm8, ht, hw]

def wPlaylistPath : GoStr := "/hls/k1/stream.m3u8".toList

def wPlaylistName : GoStr := "stream.m3u8".toList

/-- A poll oracle for which the playlist is ready at once. -/
def wPollReady : Nat → Option GoStr := fun _ => some tsSuffix

theorem handle_hls_polling_witness :
    splitFirstSlash (stripHlsPre wPlaylistPath) = some (cxKey, wPlaylistName) ∧
    goContains wPlaylistName slashStr = false ∧
    goContains wPlaylistName dotdotStr = false ∧
    resolveDir cxRoot cxKey (touchHLS cxKey 7 cachedState) = some cxDir ∧
    (handleHLS cxRoot wPlaylistPath 7 wPollReady cachedState).resp =
      ⟨200, some "application/vnd.apple.mpegurl", some "no-cache",
        some (cxDir ++ '/' :: wPlaylistName)⟩ :=
  ⟨by decide, by decide, by decide, by decide,
    ((handle_hls_polling cxRoot wPlaylistPath cxKey wPlaylistName cxDir 7
        wPollReady cachedState (by decide) (by decide) (by decide)
        (by decide)).2.2.2.1 (by decide)).2 ⟨0, by decide, by decide⟩⟩

/-! ## Claim C9: traversal rejection before any effect -/

/-- C9: a request whose parsed file name contains "/" or ".." is
answered 404 with the state unchanged (no `lastAccess` update) and no
effects (nothing touched, read or served); the result does not depend
on the filesystem poll oracle at all. -/
theorem handle_hls_traversal_rejected (root urlPath : GoStr) (now : Int)
    (poll : Nat → Option GoStr) (s : HLSState) (key name : GoStr)
    (hsplit : splitFirstSlash (stripHlsPre urlPath) = some (key, name))
    (hbad : goContains name slashStr = true ∨
      goContains name dotdotStr = true) :
    handleHLS root urlPath now poll s = ⟨notFoundResp, s, []⟩ := by
  unfold handleHLS
  rcases hbad with hb | hb <;> simp [hsplit, hb]

def wBadPath : GoStr := "/hls/k1/a/..".toList

def wBadName : GoStr := "a/..".toList

def wPollNone : Nat → Option GoStr := fun _ => none

theorem handle_hls_traversal_rejected_witness :
    splitFirstSlash (stripHlsPre wBadPath) = some (cxKey, wBadName) ∧
    goContains wBadName slashStr = true ∧
    handleHLS cxRoot wBadPath 0 wPollNone bareState =
      ⟨notFoundResp, bareState, []⟩ :=
  ⟨by decide, by decide,
    handle_hls_traversal_rejected cxRoot wBadPath 0 wPollNone bareState cxKey
      wBadName (by decide) (Or.inl (by decide))⟩

end LocalCinema
